import Mathlib

/-!
Shallow embedding of the CAD-CONTROL drawing surface (src/index.tsx):
geometry kernel, coordinate transform, snap resolver, tool state machine
handlers, history manager and selection/inspector model, together with
theorems checking the specification's claims against this embedding.

JavaScript numbers are modelled as real numbers; JS arrays as lists; the
insertion-ordered JS `Set` of selected identifiers as a list of strings;
`null`/`undefined`-able values as `Option`.  The TypeScript union type
`'point' | 'annotation' | 'polygon'` is rendered as `MovingType` with
constructors `point`, `anno`, `polygon`.
-/

namespace CADControl

open Classical

/-- A plain `{x, y}` coordinate pair as used throughout the source. -/
structure Pt where
  x : ℝ
  y : ℝ

instance : Inhabited Pt := ⟨⟨0, 0⟩⟩

/-- `SurveyPoint` from src/index.tsx. -/
structure SurveyPoint where
  id : String
  x : ℝ
  y : ℝ
  z : ℝ
  desc : String

/-- `MapAnnotation` from src/index.tsx (text label anchored at `(x, y)`). -/
structure MapAnno where
  id : String
  x : ℝ
  y : ℝ
  text : String
  size : ℝ
  color : String

/-- `SurveyPolygon` from src/index.tsx. -/
structure SurveyPolygon where
  id : String
  points : List Pt
  color : String
  area : ℝ
  perimeter : ℝ
  filled : Bool

/-- One history entry: the `{points, annotations, polygons}` snapshot pushed
by `updateStateWithHistory`. -/
structure Doc where
  points : List SurveyPoint
  annotations : List MapAnno
  polygons : List SurveyPolygon

/-- `MapViewBox` from src/index.tsx. -/
structure MapViewBox where
  x : ℝ
  y : ℝ
  w : ℝ
  h : ℝ

/-- The `activeTool` union type of the SurveyMap component. -/
inductive Tool
  | select
  | pan
  | point
  | polyline
  | move
  | delete
  | measure
  | area
  | text
  | boxSelect
deriving DecidableEq

/-- The `movingType` union type (`'point' | 'annotation' | 'polygon'`). -/
inductive MovingType
  | point
  | anno
  | polygon
deriving DecidableEq

/-- `calculateArea` from src/index.tsx lines 70-79: shoelace sum over the
vertex list with wrap-around index `(i+1) % length`, absolute value halved;
`0` for fewer than three vertices. -/
noncomputable def calculateArea (points : List Pt) : ℝ :=
  if points.length < 3 then 0
  else
    |∑ i ∈ Finset.range points.length,
        ((points.getD i ⟨0, 0⟩).x * (points.getD ((i + 1) % points.length) ⟨0, 0⟩).y
          - (points.getD ((i + 1) % points.length) ⟨0, 0⟩).x * (points.getD i ⟨0, 0⟩).y)| / 2

/-- Length of one polygon edge: `Math.sqrt(dx*dx + dy*dy)` with
`dx = points[j].x - points[i].x` as in `calculatePerimeter`. -/
noncomputable def segLen (p q : Pt) : ℝ :=
  Real.sqrt ((q.x - p.x) * (q.x - p.x) + (q.y - p.y) * (q.y - p.y))

/-- `calculatePerimeter` from src/index.tsx lines 80-90: closed-loop sum of
edge lengths with wrap-around index `(i+1) % length`; `0` for fewer than two
vertices. -/
noncomputable def calculatePerimeter (points : List Pt) : ℝ :=
  if points.length < 2 then 0
  else
    ∑ i ∈ Finset.range points.length,
      segLen (points.getD i ⟨0, 0⟩) (points.getD ((i + 1) % points.length) ⟨0, 0⟩)

/-- JavaScript `Math.atan2(a, b)`: the argument of the complex number with
real part `b` and imaginary part `a`, in `(-pi, pi]`. -/
noncomputable def atan2 (a b : ℝ) : ℝ := Complex.arg ⟨b, a⟩

/-- `calculateAzimuth` from src/index.tsx lines 91-97: bearing measured
clockwise from north (`+y` axis), normalised to `[0, 2*pi)` then converted
to degrees. -/
noncomputable def calculateAzimuth (p1 p2 : Pt) : ℝ :=
  let dy := p2.y - p1.y
  let dx := p2.x - p1.x
  let theta := atan2 dx dy
  let theta2 := if theta < 0 then theta + 2 * Real.pi else theta
  theta2 * 180 / Real.pi

/-- The mutable session state of the App / SurveyMap components, restricted
to the fields the map handlers read or write.  `selectedIds` models the
insertion-ordered JS `Set<string>`; `historyIndex` starts at `-1` as in the
source, so it is an integer. -/
structure AppState where
  points : List SurveyPoint
  annotations : List MapAnno
  polygons : List SurveyPolygon
  selectedIds : List String
  history : List Doc
  historyIndex : ℤ
  activeTool : Tool
  viewBox : MapViewBox
  cursorCoords : Pt
  mouseScreenCoords : Pt
  snapEnabled : Bool
  isDragging : Bool
  dragStart : Pt
  dragOffset : Pt
  selectionBoxStart : Option Pt
  selectionBoxEnd : Option Pt
  movingId : Option String
  movingType : Option MovingType
  originalPos : Option Pt
  measureStart : Option Pt
  measureEnd : Option Pt
  areaPoints : List Pt
  selectedColorCfg : String
  isDark : Bool

/-- The live document `{points, annotations, polygons}` of a state. -/
def currentDoc (st : AppState) : Doc :=
  ⟨st.points, st.annotations, st.polygons⟩

/-- Result shape of the `bounds` memo (padded bounding box of the point
set). -/
structure MapBounds where
  minX : ℝ
  maxX : ℝ
  minY : ℝ
  maxY : ℝ
  w : ℝ
  h : ℝ

/-- Result shape of the `transform` memo (world to drawing-surface
transform). -/
structure MapTransform where
  scale : ℝ
  offsetX : ℝ
  offsetY : ℝ
  minX : ℝ
  maxY : ℝ

/-- The `bounds` memo from src/index.tsx lines 632-639: bounding box of the
point set padded by 10% per axis; a `0/100` default when there are no
points; `|| 10` substitutes a width/height of 10 when the box is flat. -/
noncomputable def bounds : List SurveyPoint → MapBounds
  | [] => ⟨0, 100, 0, 100, 100, 100⟩
  | p :: ps =>
      let minX := (ps.map fun q => q.x).foldl min p.x
      let maxX := (ps.map fun q => q.x).foldl max p.x
      let minY := (ps.map fun q => q.y).foldl min p.y
      let maxY := (ps.map fun q => q.y).foldl max p.y
      let w := if maxX - minX = 0 then 10 else maxX - minX
      let h := if maxY - minY = 0 then 10 else maxY - minY
      ⟨minX - w * 0.1, maxX + w * 0.1, minY - h * 0.1, maxY + h * 0.1, w * 1.2, h * 1.2⟩

/-- The `transform` memo from src/index.tsx lines 641-647: uniform scale
fitting the padded bounds into the 1000-by-1000 drawing extent, centred by
symmetric offsets. -/
noncomputable def transformOf (pts : List SurveyPoint) : MapTransform :=
  let b := bounds pts
  let scaleX := 1000 / b.w
  let scaleY := 1000 / b.h
  let scale := min scaleX scaleY
  let drawnW := b.w * scale
  let drawnH := b.h * scale
  ⟨scale, (1000 - drawnW) / 2, (1000 - drawnH) / 2, b.minX, b.maxY⟩

/-- `toSvg` from src/index.tsx lines 649-652 (world to drawing surface). -/
noncomputable def toSvg (pts : List SurveyPoint) (x y : ℝ) : Pt :=
  let t := transformOf pts
  ⟨(x - t.minX) * t.scale + t.offsetX, (t.maxY - y) * t.scale + t.offsetY⟩

/-- `fromSvg` from src/index.tsx lines 654-657 (drawing surface to world). -/
noncomputable def fromSvg (pts : List SurveyPoint) (svgX svgY : ℝ) : Pt :=
  let t := transformOf pts
  ⟨(svgX - t.offsetX) / t.scale + t.minX, t.maxY - (svgY - t.offsetY) / t.scale⟩

/-- Euclidean distance from the probe `(x, y)` to a candidate, exactly as
written at each snap / hit-test site:
`Math.sqrt((p.x - x)**2 + (p.y - y)**2)`. -/
noncomputable def snapDist (x y : ℝ) (p : Pt) : ℝ :=
  Real.sqrt ((p.x - x) ^ 2 + (p.y - y) ^ 2)

/-- One `forEach` pass of `getNearestSnapPoint`: fold the running
`(minD, nearest)` accumulator over a candidate list.  `none` is the initial
`minD = Infinity, nearest = null` state; a candidate replaces the
accumulator only when strictly within tolerance and strictly nearer than
the current best. -/
noncomputable def snapScan (x y tol : ℝ) (acc : Option (ℝ × Pt)) (cands : List Pt) :
    Option (ℝ × Pt) :=
  cands.foldl
    (fun acc p =>
      let d := snapDist x y p
      if d < tol ∧ ∀ b ∈ acc, d < b.1 then some (d, ⟨p.x, p.y⟩) else acc)
    acc

/-- `getNearestSnapPoint` from src/index.tsx lines 659-684: converts the
screen-pixel tolerance to world units via `viewBox.w / 1000` and the
transform scale, then scans points, in-progress area vertices and saved
polygon vertices (in that order) for the nearest candidate strictly within
tolerance. -/
noncomputable def getNearestSnapPoint (st : AppState) (x y : ℝ)
    (toleranceScreen : ℝ := 15) : Option Pt :=
  let zoomFactor := st.viewBox.w / 1000
  let toleranceWorld := toleranceScreen * zoomFactor / (transformOf st.points).scale
  let acc1 := snapScan x y toleranceWorld none (st.points.map fun p => ⟨p.x, p.y⟩)
  let acc2 := snapScan x y toleranceWorld acc1 st.areaPoints
  let acc3 := st.polygons.foldl (fun acc poly => snapScan x y toleranceWorld acc poly.points) acc2
  acc3.map fun b => b.2

/-- `updateStateWithHistory` from src/index.tsx lines 157-167 (also passed
to the map component as `pushHistory`): truncate the redo tail, append the
new snapshot, evict the oldest entry beyond the cap of 50, move the index
to the new tail and install the new live document. -/
def updateStateWithHistory (st : AppState) (newPoints : List SurveyPoint)
    (newAnnotations : List MapAnno) (newPolygons : List SurveyPolygon) : AppState :=
  let currentEntry : Doc := ⟨newPoints, newAnnotations, newPolygons⟩
  let newHistory := st.history.take (st.historyIndex + 1).toNat ++ [currentEntry]
  let newHistory2 := if 50 < newHistory.length then newHistory.tail else newHistory
  { st with
      history := newHistory2
      historyIndex := (newHistory2.length : ℤ) - 1
      points := newPoints
      annotations := newAnnotations
      polygons := newPolygons }

/-- `undo` from src/index.tsx lines 169-178: restore the previous snapshot
when the index is positive, otherwise do nothing. -/
def undo (st : AppState) : AppState :=
  if 0 < st.historyIndex then
    let prevIndex := st.historyIndex - 1
    let entry := st.history.getD prevIndex.toNat (currentDoc st)
    { st with
        points := entry.points
        annotations := entry.annotations
        polygons := entry.polygons
        historyIndex := prevIndex }
  else st

/-- `redo` from src/index.tsx lines 180-189: restore the next snapshot when
the index is before the tail, otherwise do nothing. -/
def redo (st : AppState) : AppState :=
  if st.historyIndex < (st.history.length : ℤ) - 1 then
    let nextIndex := st.historyIndex + 1
    let entry := st.history.getD nextIndex.toNat (currentDoc st)
    { st with
        points := entry.points
        annotations := entry.annotations
        polygons := entry.polygons
        historyIndex := nextIndex }
  else st

/-- The data a map pointer event delivers to a handler: device coordinates,
the container rectangle obtained from `getBoundingClientRect`, and the
shift modifier. -/
structure MouseEvt where
  clientX : ℝ
  clientY : ℝ
  rectLeft : ℝ
  rectTop : ℝ
  rectWidth : ℝ
  shiftKey : Bool

/-- The raw (unsnapped) world position of a pointer event, as computed at
the top of every map handler: device delta scaled by
`zoomFactor = viewBox.w / rect.width`, offset by the viewport origin, then
`fromSvg`. -/
noncomputable def pointerWorld (st : AppState) (e : MouseEvt) : Pt :=
  let zoomFactor := st.viewBox.w / e.rectWidth
  let svgClickX := st.viewBox.x + (e.clientX - e.rectLeft) * zoomFactor
  let svgClickY := st.viewBox.y + (e.clientY - e.rectTop) * zoomFactor
  fromSvg st.points svgClickX svgClickY

/-- The world-space hit-test tolerance used by the move / select / delete
branches: `(15 * zoomFactor) / transform.scale`. -/
noncomputable def hitTolerance (st : AppState) (e : MouseEvt) : ℝ :=
  15 * (st.viewBox.w / e.rectWidth) / (transformOf st.points).scale

/-- `handleMouseDown` from src/index.tsx lines 703-755: pan starts a drag;
box-select records both corners; move hit-tests points then annotations and
records the grab offset; select toggles/replaces the selection or starts a
pan-by-drag fallback. -/
noncomputable def handleMouseDown (st : AppState) (e : MouseEvt) : AppState :=
  let worldPos := pointerWorld st e
  if st.activeTool = Tool.pan then
    { st with isDragging := true, dragStart := ⟨e.clientX, e.clientY⟩ }
  else if st.activeTool = Tool.boxSelect then
    { st with selectionBoxStart := some worldPos, selectionBoxEnd := some worldPos }
  else if st.activeTool = Tool.move then
    let tolerance := hitTolerance st e
    match st.points.find? fun p => snapDist worldPos.x worldPos.y ⟨p.x, p.y⟩ < tolerance with
    | some hitPoint =>
        { st with
            movingId := some hitPoint.id
            movingType := some MovingType.point
            originalPos := some ⟨hitPoint.x, hitPoint.y⟩
            dragOffset := ⟨worldPos.x - hitPoint.x, worldPos.y - hitPoint.y⟩
            isDragging := true }
    | none =>
      match st.annotations.find? fun a => snapDist worldPos.x worldPos.y ⟨a.x, a.y⟩ < tolerance with
      | some hitAnno =>
          { st with
              movingId := some hitAnno.id
              movingType := some MovingType.anno
              originalPos := some ⟨hitAnno.x, hitAnno.y⟩
              dragOffset := ⟨worldPos.x - hitAnno.x, worldPos.y - hitAnno.y⟩
              isDragging := true }
      | none => st
  else if st.activeTool = Tool.select then
    let tolerance := hitTolerance st e
    match st.points.find? fun p => snapDist worldPos.x worldPos.y ⟨p.x, p.y⟩ < tolerance with
    | some hit =>
        let base := if e.shiftKey then st.selectedIds else []
        let newSet :=
          if e.shiftKey ∧ st.selectedIds.contains hit.id then base.filter fun s => s ≠ hit.id
          else if base.contains hit.id then base else base ++ [hit.id]
        { st with selectedIds := newSet }
    | none =>
      match st.annotations.find? fun a => snapDist worldPos.x worldPos.y ⟨a.x, a.y⟩ < tolerance with
      | some hitAnno =>
          let base := if e.shiftKey then st.selectedIds else []
          let newSet :=
            if e.shiftKey ∧ st.selectedIds.contains hitAnno.id then base.filter fun s => s ≠ hitAnno.id
            else if base.contains hitAnno.id then base else base ++ [hitAnno.id]
          { st with selectedIds := newSet }
      | none => { st with isDragging := true, dragStart := ⟨e.clientX, e.clientY⟩ }
  else st

/-- `handleMouseMove` from src/index.tsx lines 757-800: update tooltip and
cursor coordinates (with an advisory snap for the drawing tools), extend a
selection box, pan the viewport, reposition the entity grabbed by the move
tool directly in the live document, and track the measure endpoint. -/
noncomputable def handleMouseMove (st : AppState) (e : MouseEvt) : AppState :=
  let zoomFactor := st.viewBox.w / e.rectWidth
  let worldPos0 := pointerWorld st e
  let worldPos :=
    if st.snapEnabled = true ∧ st.activeTool ≠ Tool.pan ∧ st.activeTool ≠ Tool.select
        ∧ st.activeTool ≠ Tool.boxSelect then
      match getNearestSnapPoint st worldPos0.x worldPos0.y with
      | some snap => snap
      | none => worldPos0
    else worldPos0
  let st1 := { st with
      mouseScreenCoords := ⟨e.clientX - e.rectLeft, e.clientY - e.rectTop⟩
      cursorCoords := worldPos }
  let st2 :=
    if st.activeTool = Tool.boxSelect ∧ st.selectionBoxStart.isSome = true then
      { st1 with selectionBoxEnd := some worldPos }
    else st1
  let st3 :=
    if st.activeTool = Tool.pan ∧ st.isDragging = true then
      let dx := e.clientX - st.dragStart.x
      let dy := e.clientY - st.dragStart.y
      { st2 with
          viewBox := ⟨st.viewBox.x - dx * zoomFactor, st.viewBox.y - dy * zoomFactor,
            st.viewBox.w, st.viewBox.h⟩
          dragStart := ⟨e.clientX, e.clientY⟩ }
    else if st.activeTool = Tool.select ∧ st.isDragging = true then
      let dx := e.clientX - st.dragStart.x
      let dy := e.clientY - st.dragStart.y
      { st2 with
          viewBox := ⟨st.viewBox.x - dx * zoomFactor, st.viewBox.y - dy * zoomFactor,
            st.viewBox.w, st.viewBox.h⟩
          dragStart := ⟨e.clientX, e.clientY⟩ }
    else st2
  let st4 :=
    if st.activeTool = Tool.move ∧ st.isDragging = true ∧ st.movingId.isSome = true then
      let newX := worldPos.x - st.dragOffset.x
      let newY := worldPos.y - st.dragOffset.y
      let finalPos :=
        if st.snapEnabled = true then
          match getNearestSnapPoint st newX newY with
          | some snap => snap
          | none => (⟨newX, newY⟩ : Pt)
        else ⟨newX, newY⟩
      if st.movingType = some MovingType.point then
        { st3 with
            points := st.points.map fun p =>
              if st.movingId = some p.id then { p with x := finalPos.x, y := finalPos.y } else p }
      else if st.movingType = some MovingType.anno then
        { st3 with
            annotations := st.annotations.map fun a =>
              if st.movingId = some a.id then { a with x := finalPos.x, y := finalPos.y } else a }
      else st3
    else st3
  if st.activeTool = Tool.measure ∧ st.measureStart.isSome = true then
    { st4 with measureEnd := some worldPos }
  else st4

/-- `handleMouseUp` from src/index.tsx lines 802-841: a move gesture commits
the live document to history exactly once; a completed box selects every
point/annotation inside the rectangle and every polygon with a vertex
inside; transient drag state is cleared. -/
noncomputable def handleMouseUp (st : AppState) : AppState :=
  let st1 :=
    if st.activeTool = Tool.move ∧ st.isDragging = true ∧ st.movingId.isSome = true then
      updateStateWithHistory st st.points st.annotations st.polygons
    else st
  let st2 :=
    match st.selectionBoxStart, st.selectionBoxEnd with
    | some sbs, some sbe =>
      if st.activeTool = Tool.boxSelect then
        let minX := min sbs.x sbe.x
        let maxX := max sbs.x sbe.x
        let minY := min sbs.y sbe.y
        let maxY := max sbs.y sbe.y
        let sel1 := (st.points.filter fun p : SurveyPoint =>
          minX ≤ p.x ∧ p.x ≤ maxX ∧ minY ≤ p.y ∧ p.y ≤ maxY).map fun p : SurveyPoint => p.id
        let sel2 := (st.annotations.filter fun a : MapAnno =>
          minX ≤ a.x ∧ a.x ≤ maxX ∧ minY ≤ a.y ∧ a.y ≤ maxY).map fun a : MapAnno => a.id
        let sel3 := (st.polygons.filter fun poly : SurveyPolygon =>
          poly.points.any fun pt =>
            minX ≤ pt.x ∧ pt.x ≤ maxX ∧ minY ≤ pt.y ∧ pt.y ≤ maxY).map fun p : SurveyPolygon => p.id
        { st1 with
            selectedIds := sel1 ++ sel2 ++ sel3
            selectionBoxStart := none
            selectionBoxEnd := none
            activeTool := Tool.select }
      else st1
    | _, _ => st1
  { st2 with isDragging := false, movingId := none, movingType := none, originalPos := none }

/-- `padStart(2, '0')` applied to a decimal numeral. -/
def padTwo (n : ℕ) : String :=
  if n < 10 then "0" ++ toString n else toString n

/-- `handleMapClick` from src/index.tsx lines 843-895: the single-click
tools.  `promptText` is the result of the `prompt()` call made by the text
tool (`none` models both cancel and an empty string, which are falsy). -/
noncomputable def handleMapClick (st : AppState) (e : MouseEvt)
    (promptText : Option String) : AppState :=
  if st.isDragging = true then st
  else
    let worldPos0 := pointerWorld st e
    let worldPos :=
      if st.snapEnabled = true then
        match getNearestSnapPoint st worldPos0.x worldPos0.y with
        | some snap => snap
        | none => worldPos0
      else worldPos0
    if st.activeTool = Tool.point ∨ st.activeTool = Tool.polyline then
      let newId := "P" ++ padTwo (st.points.length + 1)
      let newPoints := st.points ++ [⟨newId, worldPos.x, worldPos.y, 0, "Novo Ponto"⟩]
      updateStateWithHistory st newPoints st.annotations st.polygons
    else if st.activeTool = Tool.text then
      match promptText with
      | some t =>
          let newAnnos := st.annotations ++
            [⟨"T" ++ toString (st.annotations.length + 1), worldPos.x, worldPos.y, t, 12,
              if st.isDark then "#FFF" else "#000"⟩]
          { updateStateWithHistory st st.points newAnnos st.polygons with
              activeTool := Tool.select }
      | none => st
    else if st.activeTool = Tool.delete then
      let tolerance := hitTolerance st e
      match st.points.findIdx? fun p => snapDist worldPos.x worldPos.y ⟨p.x, p.y⟩ < tolerance with
      | some i =>
          updateStateWithHistory st (st.points.eraseIdx i) st.annotations st.polygons
      | none =>
        match st.annotations.findIdx? fun a =>
            snapDist worldPos.x worldPos.y ⟨a.x, a.y⟩ < tolerance with
        | some i =>
            updateStateWithHistory st st.points (st.annotations.eraseIdx i) st.polygons
        | none =>
          match st.polygons.find? fun poly =>
              let cx := (poly.points.foldl (fun acc p => acc + p.x) 0) / (poly.points.length : ℝ)
              let cy := (poly.points.foldl (fun acc p => acc + p.y) 0) / (poly.points.length : ℝ)
              snapDist worldPos.x worldPos.y ⟨cx, cy⟩ < tolerance * 2 with
          | some hitPoly =>
              updateStateWithHistory st st.points st.annotations
                (st.polygons.filter fun p => p.id ≠ hitPoly.id)
          | none => st
    else if st.activeTool = Tool.area then
      { st with areaPoints := st.areaPoints ++ [worldPos] }
    else if st.activeTool = Tool.measure then
      if st.measureStart.isSome = true then
        { st with measureEnd := some worldPos, activeTool := Tool.select }
      else
        { st with measureStart := some worldPos, measureEnd := some worldPos }
    else st

/-- `handleFinishArea` from src/index.tsx lines 923-945: with fewer than
three buffered vertices the buffer is discarded and the tool reverts; with
at least three, a polygon with the shoelace area and the closed-loop
perimeter of `[...areaPoints, areaPoints[0]]` is appended and committed,
the buffer cleared and the new polygon selected. -/
noncomputable def handleFinishArea (st : AppState) : AppState :=
  if st.areaPoints.length < 3 then
    { st with areaPoints := [], activeTool := Tool.select }
  else
    let area := calculateArea st.areaPoints
    let perimeter := calculatePerimeter (st.areaPoints ++ [st.areaPoints.getD 0 ⟨0, 0⟩])
    let newPoly : SurveyPolygon :=
      ⟨"Lote " ++ toString (st.polygons.length + 1), st.areaPoints, st.selectedColorCfg,
        area, perimeter, true⟩
    let st1 := updateStateWithHistory st st.points st.annotations (st.polygons ++ [newPoly])
    { st1 with
        areaPoints := []
        selectedIds := [newPoly.id]
        activeTool := Tool.select }

/-- `handleWheel` from src/index.tsx lines 897-903: symmetric 10% zoom about
the viewport centre. -/
noncomputable def handleWheel (st : AppState) (deltaY : ℝ) : AppState :=
  let zoomIntensity := (0.1 : ℝ)
  let direction : ℝ := if 0 < deltaY then 1 else -1
  let wChange := st.viewBox.w * zoomIntensity * direction
  let hChange := st.viewBox.h * zoomIntensity * direction
  { st with
      viewBox := ⟨st.viewBox.x - wChange / 2, st.viewBox.y - hChange / 2,
        st.viewBox.w + wChange, st.viewBox.h + hChange⟩ }

/-- Classification result of the inspector panel (`selectionData`). -/
inductive SelData
  | polySel (p : SurveyPolygon)
  | annoSel (a : MapAnno)
  | pointsSel (ps : List SurveyPoint)

/-- `selectionData` from src/index.tsx lines 968-985: take the first
identifier of the selection set, try it as a polygon then as an annotation,
else collect all selected points. -/
def selectionData (st : AppState) : Option SelData :=
  match st.selectedIds with
  | [] => none
  | id :: _ =>
    match st.polygons.find? fun p => p.id = id with
    | some poly => some (SelData.polySel poly)
    | none =>
      match st.annotations.find? fun a => a.id = id with
      | some anno => some (SelData.annoSel anno)
      | none =>
        let selectedPoints := st.points.filter fun p => st.selectedIds.contains p.id
        if 0 < selectedPoints.length then some (SelData.pointsSel selectedPoints) else none

/-- The events the drawing surface reacts to, covering every handler that
can touch the document or the history. -/
inductive Evt
  | mouseDown (e : MouseEvt)
  | mouseMove (e : MouseEvt)
  | mouseUp
  | mapClick (e : MouseEvt) (promptText : Option String)
  | finishArea
  | undoEvt
  | redoEvt
  | wheel (deltaY : ℝ)
  | setPolyColor (id : String) (c : String)
  | setTool (t : Tool)

/-- Event dispatch of the drawing surface.  `setPolyColor` is the inspector
colour edit (src/index.tsx line 1194), `setTool` a toolbar click. -/
noncomputable def step (st : AppState) : Evt → AppState
  | .mouseDown e => handleMouseDown st e
  | .mouseMove e => handleMouseMove st e
  | .mouseUp => handleMouseUp st
  | .mapClick e promptText => handleMapClick st e promptText
  | .finishArea => handleFinishArea st
  | .undoEvt => undo st
  | .redoEvt => redo st
  | .wheel deltaY => handleWheel st deltaY
  | .setPolyColor id c =>
      { st with polygons := st.polygons.map fun p => if p.id = id then { p with color := c } else p }
  | .setTool t => { st with activeTool := t }

/-- The initial component state: the four seeded survey points, no
annotations or polygons, empty history with index `-1`, the select tool and
the default 1000-by-1000 viewport (src/index.tsx lines 110-153, 586-618). -/
noncomputable def initialAppState : AppState where
  points :=
    [⟨"M-01", 250100.5, 7450100.2, 750, "Marco"⟩,
     ⟨"M-02", 250250, 7450120.5, 752.1, "Cerca"⟩,
     ⟨"M-03", 250280.3, 7449980.1, 748.5, "Vértice"⟩,
     ⟨"M-04", 250090.1, 7449950, 749.2, "Estrada"⟩]
  annotations := []
  polygons := []
  selectedIds := []
  history := []
  historyIndex := -1
  activeTool := Tool.select
  viewBox := ⟨0, 0, 1000, 1000⟩
  cursorCoords := ⟨0, 0⟩
  mouseScreenCoords := ⟨0, 0⟩
  snapEnabled := true
  isDragging := false
  dragStart := ⟨0, 0⟩
  dragOffset := ⟨0, 0⟩
  selectionBoxStart := none
  selectionBoxEnd := none
  movingId := none
  movingType := none
  originalPos := none
  measureStart := none
  measureEnd := none
  areaPoints := []
  selectedColorCfg := "#f59e0b"
  isDark := true

/-! ## Helper lemmas -/

lemma foldl_min_le (l : List ℝ) (a : ℝ) : l.foldl min a ≤ a := by
  induction l generalizing a with
  | nil => exact le_refl a
  | cons x t ih => exact le_trans (ih (min a x)) (min_le_left a x)

lemma le_foldl_max (l : List ℝ) (a : ℝ) : a ≤ l.foldl max a := by
  induction l generalizing a with
  | nil => exact le_refl a
  | cons x t ih => exact le_trans (le_max_left a x) (ih (max a x))

lemma bounds_pos (pts : List SurveyPoint) : 0 < (bounds pts).w ∧ 0 < (bounds pts).h := by
  cases pts with
  | nil => norm_num [bounds]
  | cons p ps =>
    rw [bounds]
    have hx : (ps.map fun q => q.x).foldl min p.x ≤ (ps.map fun q => q.x).foldl max p.x :=
      le_trans (foldl_min_le _ _) (le_foldl_max _ _)
    have hy : (ps.map fun q => q.y).foldl min p.y ≤ (ps.map fun q => q.y).foldl max p.y :=
      le_trans (foldl_min_le _ _) (le_foldl_max _ _)
    constructor
    · simp only []
      split
      · norm_num
      · rename_i hne
        have : 0 < (ps.map fun q => q.x).foldl max p.x - (ps.map fun q => q.x).foldl min p.x :=
          lt_of_le_of_ne (by linarith) (Ne.symm hne)
        nlinarith
    · simp only []
      split
      · norm_num
      · rename_i hne
        have : 0 < (ps.map fun q => q.y).foldl max p.y - (ps.map fun q => q.y).foldl min p.y :=
          lt_of_le_of_ne (by linarith) (Ne.symm hne)
        nlinarith

lemma transform_scale_pos (pts : List SurveyPoint) : 0 < (transformOf pts).scale := by
  have h := bounds_pos pts
  rw [transformOf]
  exact lt_min (div_pos (by norm_num) h.1) (div_pos (by norm_num) h.2)

lemma segLen_eval (p q : Pt) (c : ℝ) (hc : 0 ≤ c)
    (h : (q.x - p.x) * (q.x - p.x) + (q.y - p.y) * (q.y - p.y) = c * c) : segLen p q = c := by
  rw [segLen, h, Real.sqrt_mul_self hc]

lemma segLen_self (p : Pt) : segLen p p = 0 :=
  segLen_eval p p 0 le_rfl (by ring)

/-! ## Claim theorems -/

/-- C8: the shoelace area of the axis-aligned 4-by-3 rectangle
`[(0,0),(4,0),(4,3),(0,3)]` is exactly 12 and its closed-loop perimeter is
exactly 14. -/
theorem c8_shoelace_and_perimeter :
    calculateArea [⟨0, 0⟩, ⟨4, 0⟩, ⟨4, 3⟩, ⟨0, 3⟩] = 12 ∧
    calculatePerimeter [⟨0, 0⟩, ⟨4, 0⟩, ⟨4, 3⟩, ⟨0, 3⟩] = 14 := by
  constructor
  · rw [calculateArea]
    norm_num [Finset.sum_range_succ, List.getD]
  · rw [calculatePerimeter]
    norm_num [Finset.sum_range_succ, List.getD]
    rw [segLen_eval ⟨0, 0⟩ ⟨4, 0⟩ 4 (by norm_num) (by norm_num),
      segLen_eval ⟨4, 0⟩ ⟨4, 3⟩ 3 (by norm_num) (by norm_num),
      segLen_eval ⟨4, 3⟩ ⟨0, 3⟩ 4 (by norm_num) (by norm_num),
      segLen_eval ⟨0, 3⟩ ⟨0, 0⟩ 3 (by norm_num) (by norm_num)]
    norm_num

/-- C9: the azimuth is measured clockwise from north: due north gives 0
degrees, due east 90 degrees, due south 180 degrees. -/
theorem c9_azimuth_cardinal :
    calculateAzimuth ⟨0, 0⟩ ⟨0, 1⟩ = 0 ∧
    calculateAzimuth ⟨0, 0⟩ ⟨1, 0⟩ = 90 ∧
    calculateAzimuth ⟨0, 0⟩ ⟨0, -1⟩ = 180 := by
  have hpi := Real.pi_pos
  refine ⟨?_, ?_, ?_⟩
  · simp only [calculateAzimuth, atan2]
    have h1 : (⟨(1 : ℝ) - 0, (0 : ℝ) - 0⟩ : ℂ) = 1 := by
      apply Complex.ext <;> norm_num
    rw [h1, Complex.arg_one, if_neg (lt_irrefl 0)]
    norm_num
  · simp only [calculateAzimuth, atan2]
    have h1 : (⟨(0 : ℝ) - 0, (1 : ℝ) - 0⟩ : ℂ) = Complex.I := by
      apply Complex.ext <;> norm_num
    rw [h1, Complex.arg_I, if_neg (by linarith : ¬Real.pi / 2 < 0)]
    field_simp
    ring
  · simp only [calculateAzimuth, atan2]
    have h1 : (⟨(-1 : ℝ) - 0, (0 : ℝ) - 0⟩ : ℂ) = -1 := by
      apply Complex.ext <;> norm_num
    rw [h1, Complex.arg_neg_one, if_neg (by linarith : ¬Real.pi < 0)]
    field_simp

/-- C6: for every point set (including no points and flat bounding boxes)
the derived scale is strictly positive and `fromSvg` inverts `toSvg`
exactly — in particular within any relative error bound such as 1e-9. -/
theorem c6_transform_round_trip (pts : List SurveyPoint) (x y : ℝ) :
    0 < (transformOf pts).scale ∧
    fromSvg pts (toSvg pts x y).x (toSvg pts x y).y = ⟨x, y⟩ := by
  have hs := transform_scale_pos pts
  refine ⟨hs, ?_⟩
  have hne : (transformOf pts).scale ≠ 0 := ne_of_gt hs
  rw [toSvg, fromSvg]
  simp only []
  rw [Pt.mk.injEq]
  constructor
  · field_simp
  · field_simp

/-! ## History manager lemmas -/

/-- Apply the commits `f 0, f 1, ..., f (n-1)` in order through
`updateStateWithHistory`. -/
def applyCommits (f : ℕ → Doc) : ℕ → AppState → AppState
  | 0, st => st
  | n + 1, st =>
      updateStateWithHistory (applyCommits f n st) (f n).points (f n).annotations (f n).polygons

lemma undo_history (st : AppState) : (undo st).history = st.history := by
  rw [undo]; split <;> rfl

lemma undo_index_eq (st : AppState) :
    (undo st).historyIndex =
      if 0 < st.historyIndex then st.historyIndex - 1 else st.historyIndex := by
  rw [undo]; split <;> rfl

lemma undo_at_nonpos (st : AppState) (h : ¬0 < st.historyIndex) : undo st = st := by
  rw [undo, if_neg h]

lemma commit_history_shape (s : AppState) (np : List SurveyPoint) (na : List MapAnno)
    (npoly : List SurveyPolygon) :
    let T := s.history.take (s.historyIndex + 1).toNat
    let full := T ++ [(⟨np, na, npoly⟩ : Doc)]
    (updateStateWithHistory s np na npoly).history =
      (if 50 < full.length then full.tail else full) ∧
    (updateStateWithHistory s np na npoly).historyIndex =
      ((if 50 < full.length then full.tail else full).length : ℤ) - 1 := by
  exact ⟨rfl, rfl⟩

lemma applyCommits_spec (f : ℕ → Doc) (st0 : AppState) (h0 : st0.history = [])
    (hi : st0.historyIndex = -1) (n : ℕ) :
    (applyCommits f n st0).history = ((List.range n).map f).drop (n - 50) ∧
    (applyCommits f n st0).historyIndex = (↑(min n 50) : ℤ) - 1 := by
  induction n with
  | zero => simp [applyCommits, h0, hi]
  | succ n ih =>
    obtain ⟨ih1, ih2⟩ := ih
    have hAlen : (((List.range n).map f).drop (n - 50)).length = min n 50 := by
      rw [List.length_drop, List.length_map, List.length_range]; omega
    have htoNat : ((applyCommits f n st0).historyIndex + 1).toNat = min n 50 := by
      rw [ih2]; omega
    have htake : (applyCommits f n st0).history.take
        ((applyCommits f n st0).historyIndex + 1).toNat =
        ((List.range n).map f).drop (n - 50) := by
      rw [htoNat, ih1, ← hAlen, List.take_length]
    have hfull : ((List.range (n + 1)).map f) = ((List.range n).map f) ++ [f n] := by
      rw [List.range_succ, List.map_append]; rfl
    obtain ⟨hsh, hsi⟩ := commit_history_shape (applyCommits f n st0) (f n).points
      (f n).annotations (f n).polygons
    simp only [htake] at hsh hsi
    have hdoc : (⟨(f n).points, (f n).annotations, (f n).polygons⟩ : Doc) = f n := rfl
    rw [hdoc] at hsh hsi
    have hfl : (((List.range n).map f).drop (n - 50) ++ [f n]).length = min n 50 + 1 := by
      rw [List.length_append, hAlen]; rfl
    by_cases hn : n < 50
    · have hnotlt : ¬50 < (((List.range n).map f).drop (n - 50) ++ [f n]).length := by
        rw [hfl]; omega
      rw [if_neg hnotlt] at hsh hsi
      have hdrop0 : n - 50 = 0 := by omega
      have hdrop0' : n + 1 - 50 = 0 := by omega
      constructor
      · rw [applyCommits, hsh, hdrop0, hdrop0', List.drop_zero, List.drop_zero, hfull]
      · rw [applyCommits, hsi, hfl]
        have : min n 50 = n := by omega
        have h2 : min (n + 1) 50 = n + 1 := by omega
        rw [this, h2]
    · have hlt : 50 < (((List.range n).map f).drop (n - 50) ++ [f n]).length := by
        rw [hfl]; omega
      rw [if_pos hlt] at hsh hsi
      have hne : ((List.range n).map f).drop (n - 50) ≠ [] := by
        intro hcon
        rw [hcon] at hAlen
        simp at hAlen
        omega
      have htl : (((List.range n).map f).drop (n - 50) ++ [f n]).tail =
          ((List.range n).map f).drop (n + 1 - 50) ++ [f n] := by
        rw [List.tail_append_of_ne_nil hne, List.tail_drop]
        have : n - 50 + 1 = n + 1 - 50 := by omega
        rw [this]
      constructor
      · rw [applyCommits, hsh, htl, hfull,
          List.drop_append_of_le_length (by rw [List.length_map, List.length_range]; omega)]
      · rw [applyCommits, hsi, htl, List.length_append, List.length_drop, List.length_map,
          List.length_range]
        have h1 : n - (n + 1 - 50) + [f n].length = 50 := by simp; omega
        rw [h1]
        have h2 : min (n + 1) 50 = 50 := by omega
        rw [h2]

/-- C3: starting from the app's initial state (empty history, index `-1`),
60 commits leave exactly 50 history entries — the commits 10..59, i.e. the
10 oldest evicted FIFO — with the index at the last entry; 50 successive
`undo()` calls stop at index 0 and a further `undo()` is a strict no-op;
and every commit truncates the redo tail beyond the current index before
appending its snapshot as the new last entry. -/
theorem c3_history_bound (f : ℕ → Doc) :
    (applyCommits f 60 initialAppState).history = ((List.range 60).map f).drop 10 ∧
    (applyCommits f 60 initialAppState).history.length = 50 ∧
    (applyCommits f 60 initialAppState).historyIndex = 49 ∧
    (undo^[50] (applyCommits f 60 initialAppState)).historyIndex = 0 ∧
    undo (undo^[50] (applyCommits f 60 initialAppState)) =
      undo^[50] (applyCommits f 60 initialAppState) ∧
    ∀ (s : AppState) (np : List SurveyPoint) (na : List MapAnno) (npoly : List SurveyPolygon),
      List.IsSuffix (updateStateWithHistory s np na npoly).history.dropLast
        (s.history.take (s.historyIndex + 1).toNat) ∧
      (updateStateWithHistory s np na npoly).history.getLast? = some ⟨np, na, npoly⟩ := by
  obtain ⟨h1, h2⟩ := applyCommits_spec f initialAppState rfl rfl 60
  have hlen : (applyCommits f 60 initialAppState).history.length = 50 := by
    rw [h1, List.length_drop, List.length_map, List.length_range]
  have hidx : (applyCommits f 60 initialAppState).historyIndex = 49 := by
    rw [h2]; rfl
  have hundo : ∀ (i : ℕ) (st : AppState), st.historyIndex = (i : ℤ) →
      (undo^[i] st).historyIndex = 0 ∧ (undo^[i] st).history = st.history := by
    intro i
    induction i with
    | zero => intro st h; exact ⟨h, rfl⟩
    | succ i ih =>
      intro st h
      rw [Function.iterate_succ_apply]
      have hpos : 0 < st.historyIndex := by rw [h]; exact_mod_cast Nat.succ_pos i
      have hidx' : (undo st).historyIndex = (i : ℤ) := by
        rw [undo_index_eq, if_pos hpos, h]; push_cast; ring
      obtain ⟨ha, hb⟩ := ih (undo st) hidx'
      exact ⟨ha, by rw [hb, undo_history]⟩
  obtain ⟨hu1, _⟩ := hundo 49 (applyCommits f 60 initialAppState) (by rw [hidx]; norm_num)
  have h50 : undo^[50] (applyCommits f 60 initialAppState) =
      undo (undo^[49] (applyCommits f 60 initialAppState)) :=
    Function.iterate_succ_apply' undo 49 (applyCommits f 60 initialAppState)
  have hstop : undo (undo^[49] (applyCommits f 60 initialAppState)) =
      undo^[49] (applyCommits f 60 initialAppState) :=
    undo_at_nonpos _ (by rw [hu1]; omega)
  refine ⟨h1, hlen, hidx, ?_, ?_, ?_⟩
  · rw [h50, hstop, hu1]
  · rw [h50, hstop]
    exact undo_at_nonpos _ (by rw [hu1]; omega)
  · intro s np na npoly
    obtain ⟨hsh, _⟩ := commit_history_shape s np na npoly
    constructor
    · rw [hsh]
      split
      · rename_i hgt
        rcases hT : s.history.take (s.historyIndex + 1).toNat with _ | ⟨a, t⟩
        · rw [hT] at hgt; simp at hgt
        · simp only [List.cons_append, List.tail_cons, List.dropLast_concat]
          exact List.suffix_cons a t
      · rw [List.dropLast_concat]
    · rw [hsh]
      split
      · rename_i hgt
        rcases hT : s.history.take (s.historyIndex + 1).toNat with _ | ⟨a, t⟩
        · rw [hT] at hgt; simp at hgt
        · simp only [List.cons_append, List.tail_cons]
          exact List.getLast?_concat t
      · exact List.getLast?_concat _

/-- Fold a list of documents through `updateStateWithHistory` (a sequence
of committed mutations). -/
def commitList (st : AppState) (ds : List Doc) : AppState :=
  ds.foldl (fun s d => updateStateWithHistory s d.points d.annotations d.polygons) st

lemma commit_invariant (s : AppState) (np : List SurveyPoint) (na : List MapAnno)
    (npoly : List SurveyPolygon) :
    (updateStateWithHistory s np na npoly).historyIndex =
      ((updateStateWithHistory s np na npoly).history.length : ℤ) - 1 ∧
    (updateStateWithHistory s np na npoly).history ≠ [] ∧
    (updateStateWithHistory s np na npoly).history.getLast? =
      some (currentDoc (updateStateWithHistory s np na npoly)) := by
  obtain ⟨hsh, hsi⟩ := commit_history_shape s np na npoly
  have hcd : currentDoc (updateStateWithHistory s np na npoly) = ⟨np, na, npoly⟩ := rfl
  refine ⟨hsi, ?_, ?_⟩
  · rw [hsh]
    split
    · rename_i hgt
      rcases hT : s.history.take (s.historyIndex + 1).toNat with _ | ⟨a, t⟩
      · rw [hT] at hgt; simp at hgt
      · simp
    · simp
  · rw [hsh, hcd]
    split
    · rename_i hgt
      rcases hT : s.history.take (s.historyIndex + 1).toNat with _ | ⟨a, t⟩
      · rw [hT] at hgt; simp at hgt
      · simp only [List.cons_append, List.tail_cons]
        exact List.getLast?_concat t
    · exact List.getLast?_concat _

lemma commitList_invariant (st : AppState) (d : Doc) (ds : List Doc) :
    (commitList st (d :: ds)).historyIndex =
      ((commitList st (d :: ds)).history.length : ℤ) - 1 ∧
    (commitList st (d :: ds)).history ≠ [] ∧
    (commitList st (d :: ds)).history.getLast? = some (currentDoc (commitList st (d :: ds))) := by
  induction ds generalizing st d with
  | nil => exact commit_invariant st d.points d.annotations d.polygons
  | cons d2 t ih =>
    have h : commitList st (d :: d2 :: t) =
        commitList (updateStateWithHistory st d.points d.annotations d.polygons) (d2 :: t) := rfl
    rw [h]
    exact ih _ d2

lemma redo_undo_of_inv (s : AppState)
    (hidx : s.historyIndex = (s.history.length : ℤ) - 1)
    (hne : s.history ≠ [])
    (hlast : s.history.getLast? = some (currentDoc s)) :
    redo (undo s) = s := by
  have hlp : 0 < s.history.length := List.length_pos.mpr hne
  by_cases hone : s.history.length = 1
  · have h0 : s.historyIndex = 0 := by rw [hidx, hone]; norm_num
    rw [undo_at_nonpos s (by omega)]
    rw [redo, if_neg (by rw [hidx]; exact lt_irrefl _)]
  · have hpos : 0 < s.historyIndex := by rw [hidx]; omega
    have hu : undo s =
        { s with
            points := (s.history.getD (s.historyIndex - 1).toNat (currentDoc s)).points
            annotations := (s.history.getD (s.historyIndex - 1).toNat (currentDoc s)).annotations
            polygons := (s.history.getD (s.historyIndex - 1).toNat (currentDoc s)).polygons
            historyIndex := s.historyIndex - 1 } := by
      rw [undo, if_pos hpos]
    rw [hu, redo,
      if_pos (show s.historyIndex - 1 < (s.history.length : ℤ) - 1 by rw [hidx]; omega)]
    have harith : s.historyIndex - 1 + 1 = s.historyIndex := by ring
    simp only [harith]
    have hnat : s.historyIndex.toNat = s.history.length - 1 := by rw [hidx]; omega
    have hgd : ∀ d : Doc, s.history.getD s.historyIndex.toNat d = currentDoc s := by
      intro d
      rw [hnat, List.getD_eq_getElem?_getD, ← List.getLast?_eq_getElem?, hlast]
      rfl
    rw [hgd]
    rfl

/-- C4: after any non-empty sequence of commits, `undo()` followed by
`redo()` restores the entire session state — in particular the live
document (points, annotations, polygons) and the history index —
exactly. -/
theorem c4_undo_redo_symmetry (st0 : AppState) (d : Doc) (ds : List Doc) :
    redo (undo (commitList st0 (d :: ds))) = commitList st0 (d :: ds) := by
  obtain ⟨h1, h2, h3⟩ := commitList_invariant st0 d ds
  exact redo_undo_of_inv _ h1 h2 h3

/-! ## Cyclic perimeter (C10) -/

lemma perimeter_append_head (p : Pt) (rest : List Pt) :
    calculatePerimeter ((p :: rest) ++ [p]) = calculatePerimeter (p :: rest) := by
  rcases rest with _ | ⟨r, rest'⟩
  · rw [calculatePerimeter, calculatePerimeter,
      if_neg (show ¬(([p] ++ [p] : List Pt).length < 2) by simp),
      if_pos (show ([p] : List Pt).length < 2 by simp)]
    simp [Finset.sum_range_succ, segLen_self, List.getD]
  · set pts := p :: r :: rest' with hpts
    have h2 : ¬pts.length < 2 := by simp [hpts]
    have hq : (pts ++ [p]).length = pts.length + 1 := by
      rw [List.length_append]; rfl
    have h2' : ¬(pts ++ [p]).length < 2 := by rw [hq]; omega
    rw [calculatePerimeter, calculatePerimeter, if_neg h2, if_neg h2', hq,
      Finset.sum_range_succ]
    have hlast : segLen ((pts ++ [p]).getD pts.length ⟨0, 0⟩)
        ((pts ++ [p]).getD ((pts.length + 1) % (pts.length + 1)) ⟨0, 0⟩) = 0 := by
      rw [Nat.mod_self,
        List.getD_append_right pts [p] ⟨0, 0⟩ pts.length le_rfl,
        List.getD_append pts [p] ⟨0, 0⟩ 0 (by simp [hpts])]
      simp [hpts, segLen_self, List.getD]
    rw [hlast, add_zero]
    apply Finset.sum_congr rfl
    intro i hi
    have hi' : i < pts.length := Finset.mem_range.mp hi
    have hm : (i + 1) % (pts.length + 1) = i + 1 := Nat.mod_eq_of_lt (by omega)
    rw [hm, List.getD_append pts [p] ⟨0, 0⟩ i hi']
    by_cases hsucc : i + 1 < pts.length
    · rw [List.getD_append pts [p] ⟨0, 0⟩ (i + 1) hsucc,
        Nat.mod_eq_of_lt hsucc]
    · have heq : i + 1 = pts.length := by omega
      rw [heq, List.getD_append_right pts [p] ⟨0, 0⟩ pts.length le_rfl, Nat.mod_self]
      simp [hpts, List.getD]

/-- C10: `calculatePerimeter` already closes the loop cyclically, so
appending a copy of the first vertex only adds a zero-length wrap segment;
consequently the perimeter `handleFinishArea` caches on a new polygon
(computed on the explicitly closed vertex list) equals the closed-loop
perimeter of the polygon's stored vertex list. -/
theorem c10_perimeter_closure :
    (∀ (p : Pt) (rest : List Pt),
      calculatePerimeter ((p :: rest) ++ [p]) = calculatePerimeter (p :: rest)) ∧
    ∀ st : AppState, 3 ≤ st.areaPoints.length →
      ∃ pg : SurveyPolygon,
        (handleFinishArea st).polygons = st.polygons ++ [pg] ∧
        pg.points = st.areaPoints ∧
        pg.perimeter = calculatePerimeter pg.points := by
  refine ⟨perimeter_append_head, ?_⟩
  intro st h3
  refine ⟨⟨"Lote " ++ toString (st.polygons.length + 1), st.areaPoints,
    st.selectedColorCfg, calculateArea st.areaPoints,
    calculatePerimeter (st.areaPoints ++ [st.areaPoints.getD 0 ⟨0, 0⟩]), true⟩, ?_, rfl, ?_⟩
  · rw [handleFinishArea, if_neg (by omega)]
    rfl
  · show calculatePerimeter (st.areaPoints ++ [st.areaPoints.getD 0 ⟨0, 0⟩]) =
      calculatePerimeter st.areaPoints
    rcases hap : st.areaPoints with _ | ⟨p, rest⟩
    · rw [hap] at h3; simp at h3
    · rw [List.getD_cons_zero]
      exact perimeter_append_head p rest

/-! ## Polygon well-formedness invariant (C7) -/

/-- Well-formedness of one polygon: at least three vertices and
non-negative cached area and perimeter. -/
def polyWF (pg : SurveyPolygon) : Prop :=
  3 ≤ pg.points.length ∧ 0 ≤ pg.area ∧ 0 ≤ pg.perimeter

/-- Well-formedness of a history snapshot. -/
def docWF (d : Doc) : Prop := ∀ pg ∈ d.polygons, polyWF pg

/-- Well-formedness of the whole session state: the live polygon list and
every history snapshot contain only well-formed polygons. -/
def stateWF (st : AppState) : Prop :=
  (∀ pg ∈ st.polygons, polyWF pg) ∧ ∀ d ∈ st.history, docWF d

lemma calculateArea_nonneg (pts : List Pt) : 0 ≤ calculateArea pts := by
  rw [calculateArea]
  split
  · exact le_refl 0
  · positivity

lemma segLen_nonneg (p q : Pt) : 0 ≤ segLen p q := Real.sqrt_nonneg _

lemma calculatePerimeter_nonneg (pts : List Pt) : 0 ≤ calculatePerimeter pts := by
  rw [calculatePerimeter]
  split
  · exact le_refl 0
  · exact Finset.sum_nonneg fun i _ => segLen_nonneg _ _

lemma getD_mem_or_eq {α : Type} (l : List α) (n : ℕ) (d : α) :
    l.getD n d ∈ l ∨ l.getD n d = d := by
  rcases lt_or_le n l.length with h | h
  · left
    rw [List.getD_eq_getElem l d h]
    exact List.getElem_mem h
  · right
    exact List.getD_eq_default l d h

lemma commit_WF (st : AppState) (np : List SurveyPoint) (na : List MapAnno)
    (npoly : List SurveyPolygon) (hst : stateWF st) (hpoly : ∀ pg ∈ npoly, polyWF pg) :
    stateWF (updateStateWithHistory st np na npoly) := by
  obtain ⟨hsh, _⟩ := commit_history_shape st np na npoly
  constructor
  · exact hpoly
  · intro d hd
    rw [hsh] at hd
    have hd' : d ∈ st.history.take (st.historyIndex + 1).toNat ++ [(⟨np, na, npoly⟩ : Doc)] := by
      by_cases hc : 50 < (st.history.take (st.historyIndex + 1).toNat ++
          [(⟨np, na, npoly⟩ : Doc)]).length
      · rw [if_pos hc] at hd
        exact List.tail_subset _ hd
      · rw [if_neg hc] at hd
        exact hd
    rcases List.mem_append.mp hd' with h | h
    · exact hst.2 d (List.take_subset _ _ h)
    · rcases List.mem_singleton.mp h with rfl
      exact hpoly

lemma undo_WF (st : AppState) (hst : stateWF st) : stateWF (undo st) := by
  by_cases h : 0 < st.historyIndex
  · have h1 : (undo st).polygons =
        (st.history.getD (st.historyIndex - 1).toNat (currentDoc st)).polygons := by
      rw [undo, if_pos h]
    refine ⟨?_, by rw [undo_history]; exact hst.2⟩
    rw [h1]
    intro pg hpg
    rcases getD_mem_or_eq st.history (st.historyIndex - 1).toNat (currentDoc st) with hm | hm
    · exact hst.2 _ hm pg hpg
    · rw [hm] at hpg
      exact hst.1 pg hpg
  · rw [undo_at_nonpos st h]
    exact hst

lemma redo_history (st : AppState) : (redo st).history = st.history := by
  rw [redo]; split <;> rfl

lemma redo_WF (st : AppState) (hst : stateWF st) : stateWF (redo st) := by
  by_cases h : st.historyIndex < (st.history.length : ℤ) - 1
  · have h1 : (redo st).polygons =
        (st.history.getD (st.historyIndex + 1).toNat (currentDoc st)).polygons := by
      rw [redo, if_pos h]
    refine ⟨?_, by rw [redo_history]; exact hst.2⟩
    rw [h1]
    intro pg hpg
    rcases getD_mem_or_eq st.history (st.historyIndex + 1).toNat (currentDoc st) with hm | hm
    · exact hst.2 _ hm pg hpg
    · rw [hm] at hpg
      exact hst.1 pg hpg
  · rw [redo, if_neg h]
    exact hst

lemma mouseDown_frame (st : AppState) (e : MouseEvt) :
    (handleMouseDown st e).polygons = st.polygons ∧
    (handleMouseDown st e).history = st.history := by
  simp only [handleMouseDown]
  repeat' split
  all_goals exact ⟨rfl, rfl⟩

lemma mouseMove_frame (st : AppState) (e : MouseEvt) :
    (handleMouseMove st e).polygons = st.polygons ∧
    (handleMouseMove st e).history = st.history ∧
    (handleMouseMove st e).historyIndex = st.historyIndex := by
  refine ⟨?_, ?_, ?_⟩ <;>
    simp only [handleMouseMove, apply_ite (fun s : AppState => s.polygons),
      apply_ite (fun s : AppState => s.history),
      apply_ite (fun s : AppState => s.historyIndex), ite_self]

lemma mouseUp_WF (st : AppState) (hst : stateWF st) : stateWF (handleMouseUp st) := by
  have hc := commit_WF st st.points st.annotations st.polygons hst hst.1
  simp only [handleMouseUp]
  repeat' split
  all_goals first
    | exact ⟨hst.1, hst.2⟩
    | exact ⟨hc.1, hc.2⟩

lemma commit_WF' (st : AppState) (np : List SurveyPoint) (na : List MapAnno)
    (npoly : List SurveyPolygon) (hst : stateWF st) (hpoly : ∀ pg ∈ npoly, polyWF pg)
    (s2 : AppState)
    (hh : s2.history = (updateStateWithHistory st np na npoly).history)
    (hp : s2.polygons = (updateStateWithHistory st np na npoly).polygons) :
    stateWF s2 := by
  have h := commit_WF st np na npoly hst hpoly
  exact ⟨by rw [hp]; exact h.1, by rw [hh]; exact h.2⟩

lemma mapClick_WF (st : AppState) (e : MouseEvt) (promptText : Option String)
    (hst : stateWF st) : stateWF (handleMapClick st e promptText) := by
  simp only [handleMapClick]
  repeat' split
  all_goals first
    | exact ⟨hst.1, hst.2⟩
    | exact commit_WF' st _ _ _ hst hst.1 _ rfl rfl
    | exact commit_WF' st _ _ _ hst
        (fun pg hpg => hst.1 pg (List.mem_of_mem_filter hpg)) _ rfl rfl

lemma finishArea_WF (st : AppState) (hst : stateWF st) : stateWF (handleFinishArea st) := by
  rw [handleFinishArea]
  split
  · exact hst
  · rename_i hge
    have hpoly : ∀ pg ∈ st.polygons ++
        [(⟨"Lote " ++ toString (st.polygons.length + 1), st.areaPoints, st.selectedColorCfg,
          calculateArea st.areaPoints,
          calculatePerimeter (st.areaPoints ++ [st.areaPoints.getD 0 ⟨0, 0⟩]), true⟩ :
          SurveyPolygon)], polyWF pg := by
      intro pg hpg
      rcases List.mem_append.mp hpg with h | h
      · exact hst.1 pg h
      · rcases List.mem_singleton.mp h with rfl
        exact ⟨by simpa using Nat.le_of_not_lt hge, calculateArea_nonneg _,
          calculatePerimeter_nonneg _⟩
    have h1 := commit_WF st st.points st.annotations _ hst hpoly
    exact ⟨h1.1, h1.2⟩

/-- C7: finishing the area tool with two or fewer buffered vertices never
creates a polygon (the polygon list is unchanged and the buffer is
discarded), and the invariant that every polygon — live or in any history
snapshot — has at least three vertices and non-negative cached area and
perimeter is preserved by every drawing-surface operation. -/
theorem c7_area_tool_minimum_and_invariant :
    (∀ st : AppState, st.areaPoints.length ≤ 2 →
      (handleFinishArea st).polygons = st.polygons ∧
      (handleFinishArea st).areaPoints = []) ∧
    ∀ (st : AppState) (e : Evt), stateWF st → stateWF (step st e) := by
  constructor
  · intro st h2
    rw [handleFinishArea, if_pos (by omega)]
    exact ⟨rfl, rfl⟩
  · intro st e hst
    rcases e with e | e | _ | ⟨e, promptText⟩ | _ | _ | _ | deltaY | ⟨id, c⟩ | t
    · obtain ⟨h1, h2⟩ := mouseDown_frame st e
      rw [step]
      exact ⟨h1 ▸ hst.1, h2 ▸ hst.2⟩
    · obtain ⟨h1, h2, _⟩ := mouseMove_frame st e
      rw [step]
      exact ⟨h1 ▸ hst.1, h2 ▸ hst.2⟩
    · exact mouseUp_WF st hst
    · exact mapClick_WF st e promptText hst
    · exact finishArea_WF st hst
    · exact undo_WF st hst
    · exact redo_WF st hst
    · exact hst
    · refine ⟨?_, hst.2⟩
      intro pg hpg
      rw [step] at hpg
      simp only [List.mem_map] at hpg
      obtain ⟨pg0, hpg0, heq⟩ := hpg
      have h0 := hst.1 pg0 hpg0
      by_cases hid : pg0.id = id
      · rw [← heq, if_pos hid]
        exact h0
      · rw [← heq, if_neg hid]
        exact h0
    · exact hst

/-- C7 witness: the claim's theorem applied at the initial state (empty
area buffer, no polygons, empty history) and a pointer-up event. -/
theorem c7_witness :
    ((handleFinishArea initialAppState).polygons = initialAppState.polygons ∧
      (handleFinishArea initialAppState).areaPoints = []) ∧
    stateWF (step initialAppState Evt.mouseUp) := by
  constructor
  · exact c7_area_tool_minimum_and_invariant.1 initialAppState (by norm_num [initialAppState])
  · exact c7_area_tool_minimum_and_invariant.2 initialAppState Evt.mouseUp
      (by constructor <;> simp [initialAppState])

/-- C10 witness: the cyclic-perimeter identity at a one-vertex list and the
finish-area consequence at a concrete three-vertex buffer. -/
theorem c10_witness :
    calculatePerimeter (([(⟨0, 0⟩ : Pt)]) ++ [(⟨0, 0⟩ : Pt)]) =
      calculatePerimeter [(⟨0, 0⟩ : Pt)] ∧
    ∃ pg : SurveyPolygon,
      (handleFinishArea { initialAppState with
        areaPoints := [⟨0, 0⟩, ⟨4, 0⟩, ⟨0, 3⟩] }).polygons =
        ({ initialAppState with areaPoints := [⟨0, 0⟩, ⟨4, 0⟩, ⟨0, 3⟩] } :
          AppState).polygons ++ [pg] ∧
      pg.points = ({ initialAppState with areaPoints := [⟨0, 0⟩, ⟨4, 0⟩, ⟨0, 3⟩] } :
        AppState).areaPoints ∧
      pg.perimeter = calculatePerimeter pg.points :=
  ⟨c10_perimeter_closure.1 ⟨0, 0⟩ [],
    c10_perimeter_closure.2 { initialAppState with areaPoints := [⟨0, 0⟩, ⟨4, 0⟩, ⟨0, 3⟩] }
      (by norm_num)⟩

/-! ## Move gesture (C5) -/

lemma commit_append_of_tail (st : AppState)
    (hidx : st.historyIndex = (st.history.length : ℤ) - 1)
    (hlen : st.history.length < 50) :
    (updateStateWithHistory st st.points st.annotations st.polygons).history =
      st.history ++ [currentDoc st] ∧
    (updateStateWithHistory st st.points st.annotations st.polygons).historyIndex =
      (st.history.length : ℤ) := by
  obtain ⟨hsh, hsi⟩ := commit_history_shape st st.points st.annotations st.polygons
  have ht : (st.historyIndex + 1).toNat = st.history.length := by rw [hidx]; omega
  have htake : st.history.take (st.historyIndex + 1).toNat = st.history := by
    rw [ht, List.take_length]
  rw [htake] at hsh hsi
  have hnc : ¬50 < (st.history ++ [(⟨st.points, st.annotations, st.polygons⟩ : Doc)]).length := by
    rw [List.length_append]
    simp
    omega
  rw [if_neg hnc] at hsh hsi
  refine ⟨hsh, ?_⟩
  rw [hsi, List.length_append]
  simp

/-- C5: pointer-move events never change the history log or its index (for
any state and any event); during a move-tool gesture on a point, the
pointer-move writes the grabbed point's new position — the pointer world
position minus the recorded grab offset, optionally snapped — directly
into the live document, leaving every other point and the polygon and
annotation lists untouched; and the pointer-up that ends the gesture
appends exactly one history entry holding the final live document. -/
theorem c5_move_commit_once :
    (∀ (st : AppState) (e : MouseEvt),
      (handleMouseMove st e).history = st.history ∧
      (handleMouseMove st e).historyIndex = st.historyIndex ∧
      (handleMouseMove st e).polygons = st.polygons) ∧
    (∀ (st : AppState) (e : MouseEvt) (id : String),
      st.activeTool = Tool.move → st.isDragging = true → st.movingId = some id →
      st.movingType = some MovingType.point →
      ∃ wp tgt : Pt,
        (wp = pointerWorld st e ∨
          getNearestSnapPoint st (pointerWorld st e).x (pointerWorld st e).y 15 = some wp) ∧
        (tgt = ⟨wp.x - st.dragOffset.x, wp.y - st.dragOffset.y⟩ ∨
          getNearestSnapPoint st (wp.x - st.dragOffset.x) (wp.y - st.dragOffset.y) 15 =
            some tgt) ∧
        (st.snapEnabled = false →
          wp = pointerWorld st e ∧ tgt = ⟨wp.x - st.dragOffset.x, wp.y - st.dragOffset.y⟩) ∧
        (handleMouseMove st e).points = st.points.map (fun p =>
          if st.movingId = some p.id then { p with x := tgt.x, y := tgt.y } else p) ∧
        (handleMouseMove st e).annotations = st.annotations) ∧
    ∀ st : AppState,
      st.activeTool = Tool.move → st.isDragging = true → st.movingId.isSome = true →
      st.historyIndex = (st.history.length : ℤ) - 1 → st.history.length < 50 →
      (handleMouseUp st).history = st.history ++ [currentDoc st] ∧
      (handleMouseUp st).historyIndex = (st.history.length : ℤ) := by
  refine ⟨fun st e => ⟨(mouseMove_frame st e).2.1, (mouseMove_frame st e).2.2,
    (mouseMove_frame st e).1⟩, ?_, ?_⟩
  · intro st e id ht hd hmid hmt
    by_cases hsnap : st.snapEnabled = true
    · rcases hsn1 : getNearestSnapPoint st (pointerWorld st e).x (pointerWorld st e).y 15 with
        _ | wp0
      · rcases hsn2 : getNearestSnapPoint st ((pointerWorld st e).x - st.dragOffset.x)
            ((pointerWorld st e).y - st.dragOffset.y) 15 with _ | tgt0
        · refine ⟨pointerWorld st e,
            ⟨(pointerWorld st e).x - st.dragOffset.x, (pointerWorld st e).y - st.dragOffset.y⟩,
            Or.inl rfl, Or.inl rfl, fun hfalse => by rw [hfalse] at hsnap; simp at hsnap, ?_, ?_⟩ <;>
            simp [handleMouseMove, ht, hd, hmid, hmt, hsnap, hsn1, hsn2]
        · refine ⟨pointerWorld st e, tgt0, Or.inl rfl, Or.inr hsn2,
            fun hfalse => by rw [hfalse] at hsnap; simp at hsnap, ?_, ?_⟩ <;>
            simp [handleMouseMove, ht, hd, hmid, hmt, hsnap, hsn1, hsn2]
      · rcases hsn2 : getNearestSnapPoint st (wp0.x - st.dragOffset.x)
            (wp0.y - st.dragOffset.y) 15 with _ | tgt0
        · refine ⟨wp0, ⟨wp0.x - st.dragOffset.x, wp0.y - st.dragOffset.y⟩,
            Or.inr rfl, Or.inl rfl,
            fun hfalse => by rw [hfalse] at hsnap; simp at hsnap, ?_, ?_⟩ <;>
            simp [handleMouseMove, ht, hd, hmid, hmt, hsnap, hsn1, hsn2]
        · refine ⟨wp0, tgt0, Or.inr rfl, Or.inr hsn2,
            fun hfalse => by rw [hfalse] at hsnap; simp at hsnap, ?_, ?_⟩ <;>
            simp [handleMouseMove, ht, hd, hmid, hmt, hsnap, hsn1, hsn2]
    · have hsf : st.snapEnabled = false := by
        rcases hb : st.snapEnabled
        · rfl
        · rw [hb] at hsnap; simp at hsnap
      refine ⟨pointerWorld st e,
        ⟨(pointerWorld st e).x - st.dragOffset.x, (pointerWorld st e).y - st.dragOffset.y⟩,
        Or.inl rfl, Or.inl rfl, fun _ => ⟨rfl, rfl⟩, ?_, ?_⟩ <;>
        simp [handleMouseMove, ht, hd, hmid, hmt, hsf]
  · intro st ht hd hm hidx hlen
    obtain ⟨h1, h2⟩ := commit_append_of_tail st hidx hlen
    have hcd : (⟨st.points, st.annotations, st.polygons⟩ : Doc) = currentDoc st := rfl
    have hbox : st.activeTool ≠ Tool.boxSelect := by rw [ht]; intro hcon; cases hcon
    constructor
    · simp only [handleMouseUp]
      rw [if_pos ⟨ht, hd, hm⟩]
      split
      · rw [if_neg (by rw [ht]; intro hcon; cases hcon)]
        exact h1
      · exact h1
    · simp only [handleMouseUp]
      rw [if_pos ⟨ht, hd, hm⟩]
      split
      · rw [if_neg (by rw [ht]; intro hcon; cases hcon)]
        exact h2
      · exact h2

/-- A concrete mid-gesture move state: the move tool dragging the seeded
point M-01, with the app's initial empty history. -/
noncomputable def c5State : AppState :=
  { initialAppState with
      activeTool := Tool.move
      isDragging := true
      movingId := some "M-01"
      movingType := some MovingType.point }

/-- A concrete pointer event over a 1000-pixel-wide container. -/
def c5Evt : MouseEvt := ⟨0, 0, 0, 0, 1000, false⟩

/-- C5 witness: the move-gesture theorem applied at the concrete state
`c5State` and event `c5Evt`, discharging every hypothesis there. -/
theorem c5_witness :
    (∃ wp tgt : Pt,
      (wp = pointerWorld c5State c5Evt ∨
        getNearestSnapPoint c5State (pointerWorld c5State c5Evt).x
          (pointerWorld c5State c5Evt).y 15 = some wp) ∧
      (tgt = ⟨wp.x - c5State.dragOffset.x, wp.y - c5State.dragOffset.y⟩ ∨
        getNearestSnapPoint c5State (wp.x - c5State.dragOffset.x)
          (wp.y - c5State.dragOffset.y) 15 = some tgt) ∧
      (c5State.snapEnabled = false →
        wp = pointerWorld c5State c5Evt ∧
        tgt = ⟨wp.x - c5State.dragOffset.x, wp.y - c5State.dragOffset.y⟩) ∧
      (handleMouseMove c5State c5Evt).points = c5State.points.map (fun p =>
        if c5State.movingId = some p.id then { p with x := tgt.x, y := tgt.y } else p) ∧
      (handleMouseMove c5State c5Evt).annotations = c5State.annotations) ∧
    (handleMouseUp c5State).history = c5State.history ++ [currentDoc c5State] ∧
    (handleMouseUp c5State).historyIndex = (c5State.history.length : ℤ) :=
  ⟨c5_move_commit_once.2.1 c5State c5Evt "M-01" rfl rfl rfl rfl,
    (c5_move_commit_once.2.2 c5State rfl rfl rfl rfl (by norm_num [c5State, initialAppState])).1,
    (c5_move_commit_once.2.2 c5State rfl rfl rfl rfl (by norm_num [c5State, initialAppState])).2⟩

/-! ## Snap resolver (C1) -/

/-- The candidate anchors `getNearestSnapPoint` actually scans, in
enumeration order: existing points, the in-progress area buffer, and the
vertices of saved polygons. -/
noncomputable def snapCandidates (st : AppState) : List Pt :=
  (st.points.map fun p => (⟨p.x, p.y⟩ : Pt)) ++ st.areaPoints ++
    st.polygons.flatMap fun pg => pg.points

/-- The world-unit tolerance `getNearestSnapPoint` derives from a
screen-pixel tolerance:
`toleranceScreen * (viewBox.w / 1000) / transform.scale`. -/
noncomputable def snapToleranceWorld (st : AppState) (toleranceScreen : ℝ) : ℝ :=
  toleranceScreen * (st.viewBox.w / 1000) / (transformOf st.points).scale

/-- Correctness of a snap result over a candidate list: `none` exactly when
no candidate lies strictly within tolerance; a returned candidate is within
tolerance, globally nearest, and strictly nearer than every earlier
qualifying candidate (so ties are won by the earlier candidate in
enumeration order). -/
noncomputable def nearestOk (cands : List Pt) (x y tol : ℝ) : Option Pt → Prop
  | none => ∀ p ∈ cands, ¬snapDist x y p < tol
  | some c =>
      snapDist x y c < tol ∧
      (∀ p ∈ cands, snapDist x y p < tol → snapDist x y c ≤ snapDist x y p) ∧
      ∃ l1 l2, cands = l1 ++ c :: l2 ∧
        ∀ p ∈ l1, snapDist x y p < tol → snapDist x y c < snapDist x y p

lemma snapScan_nil (x y tol : ℝ) (acc : Option (ℝ × Pt)) :
    snapScan x y tol acc [] = acc := rfl

lemma snapScan_cons (x y tol : ℝ) (acc : Option (ℝ × Pt)) (p : Pt) (rest : List Pt) :
    snapScan x y tol acc (p :: rest) =
      snapScan x y tol
        (if snapDist x y p < tol ∧ ∀ b ∈ acc, snapDist x y p < b.1 then
          some (snapDist x y p, ⟨p.x, p.y⟩) else acc) rest := rfl

lemma snapScan_append (x y tol : ℝ) (acc : Option (ℝ × Pt)) (l1 l2 : List Pt) :
    snapScan x y tol acc (l1 ++ l2) = snapScan x y tol (snapScan x y tol acc l1) l2 := by
  simp only [snapScan]
  rw [List.foldl_append]

lemma snapScan_none_spec (x y tol : ℝ) (L : List Pt) :
    ∀ acc : Option (ℝ × Pt), snapScan x y tol acc L = none →
    acc = none ∧ ∀ p ∈ L, ¬snapDist x y p < tol := by
  induction L with
  | nil => intro acc h; exact ⟨h, by simp⟩
  | cons p rest ih =>
    intro acc h
    rw [snapScan_cons] at h
    by_cases hc : snapDist x y p < tol ∧ ∀ b ∈ acc, snapDist x y p < b.1
    · rw [if_pos hc] at h
      obtain ⟨habs, _⟩ := ih _ h
      cases habs
    · rw [if_neg hc] at h
      obtain ⟨hacc, hrest⟩ := ih _ h
      subst hacc
      refine ⟨rfl, ?_⟩
      intro q hq
      rcases List.mem_cons.mp hq with rfl | hq'
      · intro hlt
        exact hc ⟨hlt, by simp⟩
      · exact hrest q hq'

lemma snapScan_some_spec (x y tol : ℝ) (L : List Pt) :
    ∀ (acc : Option (ℝ × Pt)) (dv : ℝ) (c : Pt),
    snapScan x y tol acc L = some (dv, c) →
    (acc = some (dv, c) ∧ ∀ p ∈ L, snapDist x y p < tol → dv ≤ snapDist x y p) ∨
    (dv = snapDist x y c ∧ snapDist x y c < tol ∧
      (∀ b : ℝ × Pt, acc = some b → snapDist x y c < b.1) ∧
      ∃ l1 l2, L = l1 ++ c :: l2 ∧
        (∀ p ∈ l1, snapDist x y p < tol → snapDist x y c < snapDist x y p) ∧
        (∀ p ∈ l2, snapDist x y p < tol → snapDist x y c ≤ snapDist x y p)) := by
  induction L with
  | nil =>
    intro acc dv c h
    left
    exact ⟨h, by simp⟩
  | cons p rest ih =>
    intro acc dv c h
    rw [snapScan_cons] at h
    by_cases hc : snapDist x y p < tol ∧ ∀ b ∈ acc, snapDist x y p < b.1
    · rw [if_pos hc] at h
      rcases ih _ _ _ h with ⟨hacc, hall⟩ | ⟨hdv, hlt, haccb, l1, l2, hsplit, hl1, hl2⟩
      · have hdvp : dv = snapDist x y p ∧ c = p := by
          have h1 := Option.some.inj hacc
          exact ⟨(congrArg Prod.fst h1).symm, (congrArg Prod.snd h1).symm⟩
        obtain ⟨hdvp1, hdvp2⟩ := hdvp
        right
        subst hdvp2
        refine ⟨by rw [hdvp1], hc.1, ?_, [], rest, rfl, by simp, ?_⟩
        · intro b hb
          exact hdvp1 ▸ hc.2 b hb
        · intro q hq hqtol
          rw [← hdvp1]
          exact hall q hq hqtol
      · right
        have hcp : snapDist x y c < snapDist x y p :=
          haccb (snapDist x y p, ⟨p.x, p.y⟩) rfl
        refine ⟨hdv, hlt, ?_, p :: l1, l2, by rw [hsplit, List.cons_append], ?_, hl2⟩
        · intro b hb
          exact lt_trans hcp (hc.2 b hb)
        · intro q hq hqtol
          rcases List.mem_cons.mp hq with rfl | hq'
          · exact hcp
          · exact hl1 q hq' hqtol
    · rw [if_neg hc] at h
      rcases ih _ _ _ h with ⟨hacc, hall⟩ | ⟨hdv, hlt, haccb, l1, l2, hsplit, hl1, hl2⟩
      · left
        refine ⟨hacc, ?_⟩
        intro q hq hqtol
        rcases List.mem_cons.mp hq with rfl | hq'
        · by_contra hnot
          apply hc
          refine ⟨hqtol, ?_⟩
          intro b hb
          rw [hacc] at hb
          have := Option.some.inj hb
          rw [← this]
          exact lt_of_not_le hnot
        · exact hall q hq' hqtol
      · right
        refine ⟨hdv, hlt, haccb, p :: l1, l2, by rw [hsplit, List.cons_append], ?_, hl2⟩
        intro q hq hqtol
        rcases List.mem_cons.mp hq with rfl | hq'
        · rcases not_and_or.mp hc with hbad | hbad
          · exact absurd hqtol hbad
          · push_neg at hbad
            obtain ⟨b, hb, hble⟩ := hbad
            exact lt_of_lt_of_le (haccb b hb) hble
        · exact hl1 q hq' hqtol

lemma getNearest_eq_scan (st : AppState) (x y t : ℝ) :
    getNearestSnapPoint st x y t =
      (snapScan x y (snapToleranceWorld st t) none (snapCandidates st)).map fun b => b.2 := by
  have hpolys : ∀ (tol : ℝ) (polys : List SurveyPolygon) (acc : Option (ℝ × Pt)),
      polys.foldl (fun acc poly => snapScan x y tol acc poly.points) acc =
      snapScan x y tol acc (polys.flatMap fun pg => pg.points) := by
    intro tol polys
    induction polys with
    | nil => intro acc; rfl
    | cons pg rest ih =>
      intro acc
      have hfm : ((pg :: rest).flatMap fun q => q.points) =
          pg.points ++ rest.flatMap fun q => q.points := rfl
      rw [List.foldl_cons, ih, hfm, snapScan_append]
  have htol : snapToleranceWorld st t =
      t * (st.viewBox.w / 1000) / (transformOf st.points).scale := rfl
  rw [getNearestSnapPoint, snapCandidates, htol]
  rw [hpolys, snapScan_append, snapScan_append]

/-- C1 (amended): `getNearestSnapPoint` converts the screen tolerance to
world units as `toleranceScreen * (viewBox.w / 1000) / transform.scale` and
returns the globally nearest candidate strictly within that tolerance among
three candidate classes — existing points, in-progress area-tool vertices
and committed polygon vertices (annotation anchors are not scanned) — or
none when no candidate qualifies; equally-near candidates are won by the
earlier candidate in enumeration order. -/
theorem c1_snap_nearest (st : AppState) (x y t : ℝ) :
    nearestOk (snapCandidates st) x y (snapToleranceWorld st t)
      (getNearestSnapPoint st x y t) := by
  rw [getNearest_eq_scan]
  rcases hscan : snapScan x y (snapToleranceWorld st t) none (snapCandidates st) with
    _ | ⟨dv, c⟩
  · rw [Option.map_none']
    exact (snapScan_none_spec x y (snapToleranceWorld st t) (snapCandidates st) none hscan).2
  · rw [Option.map_some']
    rcases snapScan_some_spec x y (snapToleranceWorld st t) (snapCandidates st) none dv c hscan
      with ⟨habs, _⟩ | ⟨hdv, hlt, _, l1, l2, hsplit, hl1, hl2⟩
    · cases habs
    · refine ⟨hlt, ?_, l1, l2, hsplit, hl1⟩
      intro q hq hqtol
      rw [hsplit] at hq
      rcases List.mem_append.mp hq with hq1 | hq2
      · exact le_of_lt (hl1 q hq1 hqtol)
      · rcases List.mem_cons.mp hq2 with rfl | hq3
        · exact le_refl _
        · exact hl2 q hq3 hqtol

/-- C1 witness: the amended snap theorem instantiated at the app's initial
state and the probe `(0, 0)` with the default 15-pixel tolerance. -/
theorem c1_snap_witness :
    nearestOk (snapCandidates initialAppState) 0 0 (snapToleranceWorld initialAppState 15)
      (getNearestSnapPoint initialAppState 0 0 15) :=
  c1_snap_nearest initialAppState 0 0 15

/-- The candidate classes the specification asserts, in the order it
states: points, in-progress area vertices, committed polygon vertices, and
annotation anchors.  Modelled from the claim for refutation; the code
scans only the first three classes. -/
noncomputable def specSnapCandidates (st : AppState) : List Pt :=
  (st.points.map fun p => (⟨p.x, p.y⟩ : Pt)) ++ st.areaPoints ++
    (st.polygons.flatMap fun pg => pg.points) ++ (st.annotations.map fun a => ⟨a.x, a.y⟩)

/-- A state with a single annotation anchored at `(5, 5)` and no other
entities. -/
noncomputable def c1State : AppState :=
  { initialAppState with
      points := []
      annotations := [⟨"T1", 5, 5, "nota", 12, "#FFF"⟩] }

/-- C1 counterexample: at the probe `(5, 5)` with tolerance 15 screen
pixels, the claim as stated — nearest among four classes including
annotation anchors — fails: the annotation anchor at `(5, 5)` is at
distance 0, strictly within the 1.5 world-unit tolerance, yet
`getNearestSnapPoint` returns none because annotation anchors are never
scanned. -/
theorem c1_counterexample :
    ¬nearestOk (specSnapCandidates c1State) 5 5 (snapToleranceWorld c1State 15)
      (getNearestSnapPoint c1State 5 5 15) := by
  intro hok
  have hres : getNearestSnapPoint c1State 5 5 15 = none := rfl
  rw [hres] at hok
  have hmem : (⟨5, 5⟩ : Pt) ∈ specSnapCandidates c1State := by
    simp [specSnapCandidates, c1State, initialAppState]
  have hzero : snapDist 5 5 (⟨5, 5⟩ : Pt) = 0 := by
    simp [snapDist]
  have hscale : (transformOf c1State.points).scale = 10 := by
    have hpts : c1State.points = [] := rfl
    rw [hpts, transformOf, bounds]
    norm_num
  have htol : snapToleranceWorld c1State 15 = 3 / 2 := by
    have hvb : c1State.viewBox.w = 1000 := rfl
    rw [snapToleranceWorld, hvb, hscale]
    norm_num
  have := hok (⟨5, 5⟩ : Pt) hmem
  rw [hzero, htol] at this
  norm_num at this

/-! ## Inspector classification (C2) -/

/-- The inspector class name of a selection-data value. -/
def classOf : Option SelData → String
  | none => "none"
  | some (SelData.polySel _) => "polygon"
  | some (SelData.annoSel _) => "annotation"
  | some (SelData.pointsSel _) => "points"

/-- The classification the claim asserts: polygon when ANY selected
identifier is a polygon id, else annotation when ANY is an annotation id,
else a set of points.  Modelled from the claim's words, for refutation. -/
def claimedClass (st : AppState) : String :=
  if st.selectedIds.any (fun sid => st.polygons.any fun p => p.id = sid) then "polygon"
  else if st.selectedIds.any (fun sid => st.annotations.any fun a => a.id = sid) then
    "annotation"
  else "points"

/-- A state selecting a point first and a polygon second. -/
noncomputable def c2State : AppState :=
  { initialAppState with
      points := [⟨"P1", 0, 0, 0, ""⟩]
      annotations := []
      polygons := [⟨"L1", [⟨0, 0⟩, ⟨1, 0⟩, ⟨0, 1⟩], "c", 1, 4, true⟩]
      selectedIds := ["P1", "L1"] }

/-- C2 counterexample: with the selection `{P1, L1}` (point first, polygon
second) the claim as stated demands the class 'polygon' because a selected
identifier belongs to the polygon set, but `selectionData` inspects only
the first identifier `P1` and reports a set of points. -/
theorem c2_counterexample :
    ¬(c2State.selectedIds ≠ [] → classOf (selectionData c2State) = claimedClass c2State) := by
  intro h
  have h1 := h (by simp [c2State, initialAppState])
  have hl : classOf (selectionData c2State) = "points" := rfl
  have hr : claimedClass c2State = "polygon" := rfl
  rw [hl, hr] at h1
  exact absurd h1 (by decide)

/-- C2 (amended): for a non-empty selection the inspector inspects only the
FIRST selected identifier: it reports 'polygon' exactly when that
identifier is a polygon id, otherwise 'annotation' exactly when it is an
annotation id, otherwise 'set of points' exactly when some selected
identifier is a point id (and nothing at all otherwise). -/
theorem c2_selection_classification (st : AppState) (sid : String) (rest : List String)
    (hsel : st.selectedIds = sid :: rest) :
    (classOf (selectionData st) = "polygon" ↔
      st.polygons.any (fun p => p.id = sid) = true) ∧
    (classOf (selectionData st) = "annotation" ↔
      st.polygons.any (fun p => p.id = sid) = false ∧
      st.annotations.any (fun a => a.id = sid) = true) ∧
    (classOf (selectionData st) = "points" ↔
      st.polygons.any (fun p => p.id = sid) = false ∧
      st.annotations.any (fun a => a.id = sid) = false ∧
      st.points.any (fun p => st.selectedIds.contains p.id) = true) := by
  simp only [hsel]
  rcases hf1 : st.polygons.find? (fun p => p.id = sid) with _ | pg
  · have ha1 : st.polygons.any (fun p => p.id = sid) = false := by
      rw [List.any_eq_false]
      rw [List.find?_eq_none] at hf1
      exact hf1
    rcases hf2 : st.annotations.find? (fun a => a.id = sid) with _ | an
    · have ha2 : st.annotations.any (fun a => a.id = sid) = false := by
        rw [List.any_eq_false]
        rw [List.find?_eq_none] at hf2
        exact hf2
      by_cases hflt : 0 < (st.points.filter fun p => (sid :: rest).contains p.id).length
      · have hsd : selectionData st =
            some (SelData.pointsSel (st.points.filter fun p => (sid :: rest).contains p.id)) := by
          simp only [selectionData, hsel, hf1, hf2]
          rw [if_pos hflt]
        have hany : st.points.any (fun p => (sid :: rest).contains p.id) = true := by
          rw [List.any_eq_true]
          rcases hfe : st.points.filter (fun p => (sid :: rest).contains p.id) with _ | ⟨q, qs⟩
          · rw [hfe] at hflt; simp at hflt
          · have hq : q ∈ st.points.filter fun p => (sid :: rest).contains p.id := by
              rw [hfe]; exact List.mem_cons_self q qs
            exact ⟨q, List.mem_of_mem_filter hq, (List.mem_filter.mp hq).2⟩
        rw [hsd]
        rw [show classOf (some (SelData.pointsSel
          (st.points.filter fun p => (sid :: rest).contains p.id))) = "points" from rfl]
        refine ⟨?_, ?_, ?_⟩
        · exact ⟨fun hcl => absurd hcl (by decide),
            fun h1 => by rw [ha1] at h1; exact absurd h1 (by decide)⟩
        · exact ⟨fun hcl => absurd hcl (by decide),
            fun h2 => by rw [ha2] at h2; exact absurd h2.2 (by decide)⟩
        · exact ⟨fun _ => ⟨ha1, ha2, hany⟩, fun _ => rfl⟩
      · have hsd : selectionData st = none := by
          simp only [selectionData, hsel, hf1, hf2]
          rw [if_neg hflt]
        have hany : st.points.any (fun p => (sid :: rest).contains p.id) = false := by
          rw [List.any_eq_false]
          intro q hq hcon
          apply hflt
          rw [List.length_pos]
          intro hnil
          have hmem : q ∈ st.points.filter fun p => (sid :: rest).contains p.id :=
            List.mem_filter.mpr ⟨hq, hcon⟩
          rw [hnil] at hmem
          cases hmem
        rw [hsd]
        rw [show classOf none = "none" from rfl]
        refine ⟨?_, ?_, ?_⟩
        · exact ⟨fun hcl => absurd hcl (by decide),
            fun h1 => by rw [ha1] at h1; exact absurd h1 (by decide)⟩
        · exact ⟨fun hcl => absurd hcl (by decide),
            fun h2 => by rw [ha2] at h2; exact absurd h2.2 (by decide)⟩
        · exact ⟨fun hcl => absurd hcl (by decide),
            fun h3 => by rw [hany] at h3; exact absurd h3.2.2 (by decide)⟩
    · have ha2 : st.annotations.any (fun a => a.id = sid) = true := by
        rw [List.any_eq_true]
        refine ⟨an, List.mem_of_find?_eq_some hf2, ?_⟩
        have hpa := List.find?_some hf2
        exact hpa
      have hsd : selectionData st = some (SelData.annoSel an) := by
        simp only [selectionData, hsel, hf1, hf2]
      rw [hsd]
      rw [show classOf (some (SelData.annoSel an)) = "annotation" from rfl]
      refine ⟨?_, ?_, ?_⟩
      · exact ⟨fun hcl => absurd hcl (by decide),
          fun h1 => by rw [ha1] at h1; exact absurd h1 (by decide)⟩
      · exact ⟨fun _ => ⟨ha1, ha2⟩, fun _ => rfl⟩
      · exact ⟨fun hcl => absurd hcl (by decide),
          fun h3 => by rw [ha2] at h3; exact absurd h3.2.1 (by decide)⟩
  · have ha1 : st.polygons.any (fun p => p.id = sid) = true := by
      rw [List.any_eq_true]
      refine ⟨pg, List.mem_of_find?_eq_some hf1, ?_⟩
      have hpa := List.find?_some hf1
      exact hpa
    have hsd : selectionData st = some (SelData.polySel pg) := by
      simp only [selectionData, hsel, hf1]
    rw [hsd]
    rw [show classOf (some (SelData.polySel pg)) = "polygon" from rfl]
    refine ⟨?_, ?_, ?_⟩
    · exact ⟨fun _ => ha1, fun _ => rfl⟩
    · exact ⟨fun hcl => absurd hcl (by decide),
        fun h2 => by rw [ha1] at h2; exact absurd h2.1 (by decide)⟩
    · exact ⟨fun hcl => absurd hcl (by decide),
        fun h3 => by rw [ha1] at h3; exact absurd h3.1 (by decide)⟩

/-- C2 witness: the amended classification theorem applied at the concrete
state `c2State`, whose first selected identifier is the point `P1`. -/
theorem c2_witness :
    (classOf (selectionData c2State) = "polygon" ↔
      c2State.polygons.any (fun p => p.id = "P1") = true) ∧
    (classOf (selectionData c2State) = "annotation" ↔
      c2State.polygons.any (fun p => p.id = "P1") = false ∧
      c2State.annotations.any (fun a => a.id = "P1") = true) ∧
    (classOf (selectionData c2State) = "points" ↔
      c2State.polygons.any (fun p => p.id = "P1") = false ∧
      c2State.annotations.any (fun a => a.id = "P1") = false ∧
      c2State.points.any (fun p => c2State.selectedIds.contains p.id) = true) :=
  c2_selection_classification c2State "P1" ["L1"] rfl

end CADControl
